import Mathlib

/-!
Verification of the emailinspect email-verification pipeline
(modules `emailinspect/smtp.py` and `emailinspect/inspect.py`).

Modelling conventions.

The network is an oracle.  One SMTP connection attempt is described by a
`ConnScript`: the server's reply to the TCP connect/banner, to EHLO/HELO,
to MAIL FROM, and the list of replies it gives to the successive RCPT TO
commands issued on that connection.  A host's behaviour is the list of
scripts its successive connection attempts consume; an exhausted script
list means the host no longer answers (socket-level connect failure).
Exceptions of the Python runtime are part of the oracle alphabet:
`sockTimeout` stands for `socket.timeout`, `sockErr` for any other
`socket.error`, `disconnected` for `smtplib.SMTPServerDisconnected`,
`heloErr` for `smtplib.SMTPHeloError`.  In Python 2 (the source's
dialect: `izip`, `unicode`, `.next()`), `socket.timeout` is a subclass of
`socket.error`, so a handler for `socket.error` also catches
`socket.timeout`; the embedding of `SMTPSession.start` reflects that.

DNS resolution (`dns.resolver.query`) is an oracle
`String → Except Unit (List (String × Nat))` returning the raw MX answer
(host text, preference) or a `dns.exception.DNSException`.

The collaborators that the spec declares out of scope (syntactic address
validation, provider normalisation, the free/disposable/role word-list
predicates) and `utils.split_email` (a thin wrapper over the standard
library's `email.utils.parseaddr`) are black-box parameters of the
orchestrator, collected in `Collaborators`.

Python generators are consumed lazily.  `verify_smtp_recipients` is
embedded eagerly, which is observationally equivalent here: the only
suffix it can produce beyond what `izip` consumes is the effect-free
error loop.  `verify_smtp_recipient` calls `.next()`, which runs the
generator only to its first yield; its embedding therefore stops right
after the first RCPT reply (in particular the 552/554 restart that
follows the yield in `SMTPSession.recipients` never runs for the
single-recipient shortcut), and a generator that finishes without
yielding is modelled as `none` (Python raises `StopIteration` there).

The probe log, the MX log, the uuid counter and the restart counter are
ghost instrumentation: they record which oracle calls the code performs
and never influence control flow.
-/

namespace EmailInspect

/-! ### Oracle alphabet for one SMTP connection (smtp.py) -/

/-- Outcome of `smtplib.SMTP.connect(host)` as the session observes it. -/
inductive ConnectRes where
  | reply (code : Nat)
  | sockTimeout
  | sockErr
  | disconnected
deriving DecidableEq, Repr

/-- Outcome of `smtp.ehlo_or_helo_if_needed()`. -/
inductive EhloRes where
  | ok
  | heloErr
  | sockTimeout
  | disconnected
deriving DecidableEq, Repr

/-- Outcome of `smtp.mail(mail_from)`. -/
inductive MailRes where
  | reply (code : Nat)
  | sockTimeout
  | disconnected
deriving DecidableEq, Repr

/-- Outcome of one `smtp.rcpt(addr)` call. -/
inductive RcptRes where
  | reply (code : Nat)
  | sockTimeout
  | disconnected
deriving DecidableEq, Repr

/-- Server behaviour over one accepted connection attempt. -/
structure ConnScript where
  connectRes : ConnectRes
  ehloRes : EhloRes
  mailRes : MailRes
  rcptRes : List RcptRes
deriving DecidableEq, Repr

/-- State of one `SMTPSession` object: the remaining connection scripts of
its host, the remaining RCPT replies of the live connection (`none` when
`self._smtp` is unusable), and a ghost counter of `restart()` calls. -/
structure SessState where
  scripts : List ConnScript
  current : Option (List RcptRes)
  restarts : Nat
deriving DecidableEq, Repr

namespace SMTPSession

/-- Embeds `SMTPSession.quit`: teardown; never raises. -/
def quit (st : SessState) : SessState :=
  { st with current := none }

/-- Embeds `SMTPSession.start`: connect, greet, declare sender.  Returns the
`SMTPSessionError` reason, or `none` on success.  The inner
`except socket.error` of the source also catches `socket.timeout`
(its subclass), so a connect that times out is reported `no_connect`. -/
def start (st : SessState) : Option String × SessState :=
  match st.scripts with
  | [] => (some "no_connect", { st with current := none })
  | att :: rest =>
    let st1 : SessState := { st with scripts := rest, current := none }
    match att.connectRes with
    | .sockTimeout => (some "no_connect", st1)
    | .sockErr => (some "no_connect", st1)
    | .disconnected => (some "invalid_smtp", st1)
    | .reply c =>
      if c = 220 then
        match att.ehloRes with
        | .heloErr => (some "invalid_smtp", st1)
        | .sockTimeout => (some "timeout", st1)
        | .disconnected => (some "invalid_smtp", st1)
        | .ok =>
          match att.mailRes with
          | .sockTimeout => (some "timeout", st1)
          | .disconnected => (some "invalid_smtp", st1)
          | .reply mc =>
            if mc = 250 then (none, { st1 with current := some att.rcptRes })
            else (some "invalid_smtp", st1)
      else (some "invalid_smtp", st1)

/-- Embeds `SMTPSession.restart`: quit then start, counted by the ghost field. -/
def restart (st : SessState) : Option String × SessState :=
  start (quit { st with restarts := st.restarts + 1 })

/-- One `self._smtp.rcpt(email_addr)` call: next scripted reply, or a
disconnect when the connection (or its script) is gone. -/
def rcpt (st : SessState) : RcptRes × SessState :=
  match st.current with
  | none => (.disconnected, st)
  | some [] => (.disconnected, st)
  | some (r :: rs) => (r, { st with current := some rs })

/-- Embeds the `SMTPSession.recipients` generator: the pairs it yields, the
`SMTPSessionError` reason that escapes it (from a failed `restart`), and
the final session state.  A RCPT that raises `socket.timeout` or
`SMTPServerDisconnected` is caught before the yield, so that recipient
produces no pair; the session then stays inactive and every later
recipient is yielded as not accepted. -/
def recipients : SessState → Bool → List String → List (String × Bool) × Option String × SessState
  | st, _, [] => ([], none, st)
  | st, active, a :: rest =>
    if active then
      match rcpt st with
      | (.sockTimeout, st1) => recipients (quit st1) false rest
      | (.disconnected, st1) => recipients (quit st1) false rest
      | (.reply code, st1) =>
        let accepted := code == 250 || code == 251
        if code == 552 || code == 554 then
          match restart st1 with
          | (some e, st2) => ([(a, accepted)], some e, st2)
          | (none, st2) =>
            let (ys, e, st3) := recipients st2 true rest
            ((a, accepted) :: ys, e, st3)
        else
          let (ys, e, st2) := recipients st1 true rest
          ((a, accepted) :: ys, e, st2)
    else
      let (ys, e, st2) := recipients st false rest
      ((a, false) :: ys, e, st2)

end SMTPSession

/-- Embeds `verify_smtp_recipients(host, email_addresses, **opts)`: the triples
the generator yields and the final session state.  A start failure yields
one error triple per address; an `SMTPSessionError` escaping mid-batch is
caught after the already-yielded triples and appends one error triple per
address (the source's duplicate-yield path). -/
def verify_smtp_recipients (scripts : List ConnScript) (addrs : List String) :
    List (String × Bool × String) × SessState :=
  let st0 : SessState := ⟨scripts, none, 0⟩
  match SMTPSession.start st0 with
  | (some reason, st1) => (addrs.map (fun a => (a, false, reason)), st1)
  | (none, st1) =>
    match SMTPSession.recipients st1 true addrs with
    | (pairs, some reason, st2) =>
      (pairs.map (fun p => (p.1, p.2, if p.2 then "accepted_email" else "rejected_email"))
        ++ addrs.map (fun a => (a, false, reason)), SMTPSession.quit st2)
    | (pairs, none, st2) =>
      (pairs.map (fun p => (p.1, p.2, if p.2 then "accepted_email" else "rejected_email")),
        SMTPSession.quit st2)

/-- Embeds `verify_smtp_recipient(host, email_address, **opts)`: runs the
generator to its first yield via `.next()`.  `none` models the
`StopIteration` that `.next()` raises when the single probe's RCPT
raises, so the generator finishes without yielding. -/
def verify_smtp_recipient (scripts : List ConnScript) (addr : String) :
    Option (String × Bool × String) × SessState :=
  let st0 : SessState := ⟨scripts, none, 0⟩
  match SMTPSession.start st0 with
  | (some reason, st1) => (some (addr, false, reason), st1)
  | (none, st1) =>
    match SMTPSession.rcpt st1 with
    | (.reply code, st2) =>
      let accepted := code == 250 || code == 251
      (some (addr, accepted, if accepted then "accepted_email" else "rejected_email"),
        SMTPSession.quit st2)
    | (.sockTimeout, st2) => (none, SMTPSession.quit st2)
    | (.disconnected, st2) => (none, SMTPSession.quit st2)

/-! ### MX resolution (smtp.py) -/

/-- One MX record: `Exchange = namedtuple('Exchange', 'exchange preference')`. -/
structure Exchange where
  exchange : String
  preference : Nat
deriving DecidableEq, Repr, Inhabited

/-- Comparison used by `exchanges.sort(key=lambda ex: ex.preference)`. -/
def prefLE (a b : Exchange) : Prop :=
  a.preference ≤ b.preference

instance : DecidableRel prefLE := fun a b => Nat.decLe a.preference b.preference

instance : IsTotal Exchange prefLE := ⟨fun a b => Nat.le_total a.preference b.preference⟩

instance : IsTrans Exchange prefLE := ⟨fun _ _ _ h h2 => Nat.le_trans h h2⟩

/-- Python `qname[qname.find('@') + 1:]`: everything after the first `@`,
or the whole string when there is none (`find` returns -1). -/
def stripLocal (s : String) : String :=
  match s.toList.dropWhile (fun c => c != '@') with
  | [] => s
  | _ :: rest => ⟨rest⟩

/-- Python `mx.exchange.to_text().rstrip('.')`: drop trailing dots. -/
def rstripDots (s : String) : String :=
  ⟨(s.toList.reverse.dropWhile (fun c => c == '.')).reverse⟩

/-- Builds one `Exchange` from a raw (host text, preference) answer row. -/
def toExchange (hp : String × Nat) : Exchange :=
  { exchange := rstripDots hp.1, preference := hp.2 }

/-- Embeds `resolve_mx_records(qname, raise_exception=..., ...)`.  Python's
`list.sort` is a stable sort; on a total preorder every stable sort
computes the same list, embedded here as `List.insertionSort prefLE`
(Mathlib's `orderedInsert` places an element after all equal keys already
present, which is the stable placement). -/
def resolve_mx_records (resolver : String → Except Unit (List (String × Nat)))
    (qname : String) (raise_exception : Bool) : Except Unit (List Exchange) :=
  let q := stripLocal qname
  match resolver q with
  | .ok ans => .ok (List.insertionSort prefLE (ans.map toExchange))
  | .error e => if raise_exception then .error e else .ok []

/-! ### Verification orchestrator (inspect.py) -/

/-- The external collaborators consumed by `inspect_list` (spec-wise out
of scope): syntax validation, `utils.split_email` (wraps the standard
library's `email.utils.parseaddr`), provider normalisation and the
free/disposable/role word-list predicates. -/
structure Collaborators where
  is_valid_address : String → Bool
  split_email : String → String × String
  normalize : String → List String → String
  is_free : String → Bool
  is_disposable : String → List String → Bool
  is_role : String → Bool

/-- The whole environment of one `inspect_list` call: the DNS resolver,
the per-host SMTP connection scripts, and the stream of `uuid.uuid4()`
tokens.  Session options (`mail_from`, `timeout`, ...) only influence
behaviour through the servers' replies, so they are absorbed into the
oracle. -/
structure World where
  dns : String → Except Unit (List (String × Nat))
  conns : String → List ConnScript
  uuids : Nat → String

/-- The `EmailAddress` accumulator of inspect.py; Python `None` is
`Option.none`, `status` starts `unknown`, `gibberish` is never set. -/
structure EmailAddress where
  query : String
  valid : Option Bool := none
  email : Option String := none
  user : Option String := none
  domain : Option String := none
  free : Option Bool := none
  disposable : Option Bool := none
  role : Option Bool := none
  gibberish : Bool := false
  catch_all : Bool := false
  exchange : Option String := none
  all_exchanges : Option (List Exchange) := none
  status : String := "unknown"
  reason : Option String := none
deriving DecidableEq, Repr, Inhabited

/-- Embeds the `EmailAddress(query)` constructor. -/
def newAddress (q : String) : EmailAddress :=
  { query := q }

/-- Ghost record of the SMTP calls `inspect_list` performs: one `probe`
per `verify_smtp_recipient` (catch-all probe), one `batch` per
`verify_smtp_recipients` (individual recipients). -/
inductive ProbeEvent where
  | probe (host : String) (email : String)
  | batch (host : String) (emails : List String)
deriving DecidableEq, Repr

/-- Python truthiness of `addr.all_exchanges`: `None` and `[]` are falsy. -/
def hasExchanges (a : EmailAddress) : Bool :=
  match a.all_exchanges with
  | some (_ :: _) => true
  | _ => false

/-- Python `'{}'.format(x)` where `x` may be `None`. -/
def optStr : Option String → String
  | some s => s
  | none => "None"

/-- The `mx_cache` dict plus a ghost log of the domains for which
`resolve_mx_records` was actually invoked, in call order. -/
structure MxCache where
  cache : List (String × List Exchange)
  log : List String

/-- Assoc-list lookup standing in for `mx_cache.get(domain)`. -/
def lookupMx : List (String × List Exchange) → String → Option (List Exchange)
  | [], _ => none
  | (k, v) :: rest, d => if k = d then some v else lookupMx rest d

/-- What `resolve_mx_records(domain)` hands back to inspect.py: with
`raise_exception` left at its default `False` the call never raises, so
the error branch below is dead. -/
def mxResult (w : World) (d : String) : List Exchange :=
  match resolve_mx_records w.dns d false with
  | .ok l => l
  | .error _ => []

/-- Phase 1 body of `inspect_list` for one address: validate syntax,
resolve (memoized) MX records, normalize, classify free/disposable/role,
and set the tentative reason. -/
def inspectPhase1 (C : Collaborators) (w : World) (st : MxCache) (a : EmailAddress) :
    EmailAddress × MxCache :=
  let valid := C.is_valid_address a.query
  let a1 := { a with valid := some valid }
  if valid then
    let domain := (C.split_email a1.query).2
    let (exchanges, st1) :=
      match lookupMx st.cache domain with
      | some l => (l, st)
      | none =>
        (mxResult w domain,
          { cache := (domain, mxResult w domain) :: st.cache, log := st.log ++ [domain] })
    let exNames := exchanges.map (fun e => e.exchange)
    let email := C.normalize a1.query exNames
    let ud := C.split_email email
    let a2 := { a1 with
      all_exchanges := some exchanges
      email := some email
      user := some ud.1
      domain := some ud.2
      free := some (C.is_free ud.2)
      disposable := some (C.is_disposable ud.2 exNames)
      role := some (C.is_role ud.1) }
    if exchanges.isEmpty then
      ({ a2 with status := "undeliverable", reason := some "invalid_domain" }, st1)
    else
      ({ a2 with reason := some "no_connect" }, st1)
  else
    ({ a1 with status := "undeliverable", reason := some "invalid_email" }, st)

/-- Phase 1 over the whole list, threading the MX cache. -/
def inspectPhase1All (C : Collaborators) (w : World) :
    MxCache → List EmailAddress → List EmailAddress × MxCache
  | st, [] => ([], st)
  | st, a :: rest =>
    let (a1, st1) := inspectPhase1 C w st a
    let (rest1, st2) := inspectPhase1All C w st1 rest
    (a1 :: rest1, st2)

/-- Embeds `itertools.groupby(l, key)`: maximal runs of consecutive elements
with equal keys (for the equality relation chaining adjacent elements is
the same as comparing against the run's first element). -/
def groupRuns {α β : Type} [DecidableEq β] (key : α → β) : List α → List (List α)
  | [] => []
  | a :: rest =>
    match groupRuns key rest with
    | [] => [[a]]
    | [] :: gs => [a] :: [] :: gs
    | (b :: g) :: gs =>
      if key a = key b then (a :: b :: g) :: gs else [a] :: (b :: g) :: gs

/-- The `izip(group, it)` assignment loop of inspect.py's individual
branch: pair addresses with result triples, stopping at the shorter
sequence; unpaired addresses keep their phase-1 fields. -/
def zipAssign (host : String) :
    List EmailAddress → List (String × Bool × String) → List EmailAddress
  | [], _ => []
  | g, [] => g
  | a :: as, t :: ts =>
    { a with reason := some t.2.2, catch_all := false, exchange := some host }
      :: zipAssign host as ts

/-- Phase-2 network state: remaining per-host connection scripts, the
ghost probe log, and the count of uuid tokens consumed. -/
structure NetState where
  net : String → List ConnScript
  probeLog : List ProbeEvent
  uuidCount : Nat

/-- Pointwise update of the per-host script supply. -/
def updateNet (net : String → List ConnScript) (h : String) (v : List ConnScript) :
    String → List ConnScript :=
  fun x => if x = h then v else net x

/-- The `for exchange, _ in first.all_exchanges` loop: probe the
synthetic catch-all address at each exchange until a non-`no_connect`
reason; on an accepted probe mark the whole group, otherwise probe the
real recipients on that same exchange.  The `Bool` result is `true` when
the probe's `.next()` raised `StopIteration` (which `inspect_list`
propagates). -/
def exchangeLoop (probeEmail : String) (emails : List String) :
    NetState → List EmailAddress → List Exchange → List EmailAddress × NetState × Bool
  | st, group, [] => (group, st, false)
  | st, group, ex :: rest =>
    let host := ex.exchange
    let pr := verify_smtp_recipient (st.net host) probeEmail
    let st1 : NetState :=
      { st with
        net := updateNet st.net host pr.2.scripts
        probeLog := st.probeLog ++ [ProbeEvent.probe host probeEmail] }
    match pr.1 with
    | none => (group, st1, true)
    | some t =>
      if t.2.2 = "no_connect" then
        exchangeLoop probeEmail emails st1 group rest
      else if t.2.1 then
        (group.map (fun a =>
            { a with reason := some t.2.2, catch_all := true, exchange := some host }),
          st1, false)
      else
        let vr := verify_smtp_recipients (st1.net host) emails
        let st2 : NetState :=
          { st1 with
            net := updateNet st1.net host vr.2.scripts
            probeLog := st1.probeLog ++ [ProbeEvent.batch host emails] }
        (zipAssign host group vr.1, st2, false)

/-- One iteration of the `groupby` loop: build the synthetic catch-all
address from the next uuid token and the group's domain key, then run
the exchange loop over the group's shared exchange list. -/
def processGroup (w : World) (st : NetState) (group : List EmailAddress) :
    List EmailAddress × NetState × Bool :=
  let first := group.headI
  let emails := group.map (fun a => optStr a.email)
  let probeEmail := w.uuids st.uuidCount ++ "@" ++ optStr first.domain
  let st1 : NetState := { st with uuidCount := st.uuidCount + 1 }
  exchangeLoop probeEmail emails st1 group (first.all_exchanges.getD [])

/-- Phase 2 over all domain groups, stopping at a propagated
`StopIteration`. -/
def inspectPhase2 (w : World) :
    NetState → List (List EmailAddress) → List EmailAddress × NetState × Bool
  | st, [] => ([], st, false)
  | st, g :: gs =>
    let r1 := processGroup w st g
    if r1.2.2 then r1
    else
      let r := inspectPhase2 w r1.2.1 gs
      (r1.1 ++ r.1, r.2.1, r.2.2)

/-- Phase 3 body: final status from reason and the risk flags. -/
def classifyStatus (a : EmailAddress) : EmailAddress :=
  if a.reason = some "accepted_email" then
    if a.disposable.getD false || a.gibberish || a.catch_all then
      { a with status := "risky" }
    else
      { a with status := "deliverable" }
  else
    { a with status := "undeliverable" }

/-- Phase 3 runs over `with_exchanges`, i.e. exactly the addresses whose
`all_exchanges` is truthy. -/
def inspectPhase3 (l : List EmailAddress) : List EmailAddress :=
  l.map (fun a => if hasExchanges a then classifyStatus a else a)

/-- Reassemble the full address list after phase 2: the source mutates
the shared `EmailAddress` objects, so the updated `with_exchanges`
elements reappear at their original positions. -/
def mergeBack : List EmailAddress → List EmailAddress → List EmailAddress
  | [], _ => []
  | a :: rest, upd =>
    if hasExchanges a then
      match upd with
      | u :: us => u :: mergeBack rest us
      | [] => a :: mergeBack rest []
    else
      a :: mergeBack rest upd

/-- What one `inspect_list` call produces: the returned records (`none`
when the call raises `StopIteration` out of a probe), plus the ghost
MX/probe instrumentation. -/
structure InspectOutcome where
  result : Option (List EmailAddress)
  mxLog : List String
  probeLog : List ProbeEvent
  uuidCount : Nat
deriving DecidableEq, Repr

/-- Embeds `inspect_list(email_addresses, **smtp_opts)`. -/
def inspect_list (C : Collaborators) (w : World) (queries : List String) : InspectOutcome :=
  let addresses := queries.map newAddress
  let p1 := inspectPhase1All C w ⟨[], []⟩ addresses
  let with_exchanges := p1.1.filter hasExchanges
  let groups := groupRuns (fun a => a.domain) with_exchanges
  let st0 : NetState := ⟨w.conns, [], 0⟩
  let p2 := inspectPhase2 w st0 groups
  if p2.2.2 then
    { result := none
      mxLog := p1.2.log
      probeLog := p2.2.1.probeLog
      uuidCount := p2.2.1.uuidCount }
  else
    { result := some (inspectPhase3 (mergeBack p1.1 p2.1))
      mxLog := p1.2.log
      probeLog := p2.2.1.probeLog
      uuidCount := p2.2.1.uuidCount }

/-- Embeds `inspect(email_address, **kwargs)`, that is `inspect_list([...])[0]`; `none`
when `inspect_list` raised. -/
def inspect (C : Collaborators) (w : World) (q : String) : Option EmailAddress :=
  match (inspect_list C w [q]).result with
  | none => none
  | some rs => rs.head?

/-! ### Specification-side notions used by the theorems -/

/-- The fields of an `EmailAddress` that phase 2 and phase 3 never touch:
the original query, the validity flag and the resolved exchanges. -/
def frozenPart (a : EmailAddress) : String × Option Bool × Option (List Exchange) :=
  (a.query, a.valid, a.all_exchanges)

/-- Amended C3, stated as a relation: processing one (consecutive-run)
domain group with synthetic probe address `pe` and real recipients
`emails` over the exchange list `exs` performs catch-all probes of `pe`
(only) at an initial segment of the exchanges, and then either

* every exchange answered `no_connect` and the group is untouched
  (`allNoConnect`),
* the decisive probe produced no result and `StopIteration` propagates,
  the group untouched (`probeRaised`),
* the decisive probe was accepted (so its reason is `accepted_email`):
  every address of the group is marked `reason = accepted_email`,
  `catch_all = true` and that exchange, and no individual recipient is
  ever probed (`catchAllAccepted`), or
* the decisive probe was declined: exactly one batch of the group's real
  recipients runs against that same exchange and the group is updated by
  the `izip` assignment (`individual`). -/
inductive GroupOutcome (pe : String) (emails : List String) (g : List EmailAddress)
    (exs : List Exchange) : List ProbeEvent → List EmailAddress → Bool → Prop where
  | allNoConnect :
      GroupOutcome pe emails g exs
        ((exs.map (fun e => e.exchange)).map (fun h => ProbeEvent.probe h pe)) g false
  | probeRaised (hosts : List String) (h : String) (tail : List String)
      (hh : exs.map (fun e => e.exchange) = hosts ++ h :: tail) :
      GroupOutcome pe emails g exs
        (hosts.map (fun x => ProbeEvent.probe x pe) ++ [ProbeEvent.probe h pe]) g true
  | catchAllAccepted (hosts : List String) (h : String) (tail : List String)
      (hh : exs.map (fun e => e.exchange) = hosts ++ h :: tail) :
      GroupOutcome pe emails g exs
        (hosts.map (fun x => ProbeEvent.probe x pe) ++ [ProbeEvent.probe h pe])
        (g.map (fun a =>
          { a with reason := some "accepted_email", catch_all := true, exchange := some h }))
        false
  | individual (hosts : List String) (h : String) (tail : List String)
      (ts : List (String × Bool × String))
      (hh : exs.map (fun e => e.exchange) = hosts ++ h :: tail) :
      GroupOutcome pe emails g exs
        (hosts.map (fun x => ProbeEvent.probe x pe) ++
          [ProbeEvent.probe h pe, ProbeEvent.batch h emails])
        (zipAssign h g ts) false

/-- Tests whether a ghost event is a catch-all probe of the given
synthetic address. -/
def isProbeOf (email : String) : ProbeEvent → Bool
  | .probe _ e => e == email
  | .batch _ _ => false

/-- Invariant of the `mx_cache` dict: the log of performed resolutions
has no duplicates, a domain is logged exactly when it is cached, and
every cached value is the resolver's answer for its domain. -/
def CacheInv (w : World) (st : MxCache) : Prop :=
  st.log.Nodup ∧
  (∀ d, d ∈ st.log ↔ (lookupMx st.cache d).isSome = true) ∧
  (∀ d l, lookupMx st.cache d = some l → l = mxResult w d)

/-! ### Concrete environments used by witnesses and counterexamples -/

/-- Simple concrete split used by the test collaborators. -/
def splitSimple (s : String) : String × String :=
  match s.toList.dropWhile (fun c => c != '@') with
  | [] => (s, "")
  | _ :: rest => (⟨s.toList.takeWhile (fun c => c != '@')⟩, ⟨rest⟩)

/-- Concrete collaborators: an address is valid iff it contains `@`,
normalisation is the identity, all word-list predicates answer false. -/
def Ctest : Collaborators :=
  { is_valid_address := fun q => q.toList.contains '@'
    split_email := splitSimple
    normalize := fun q _ => q
    is_free := fun _ => false
    is_disposable := fun _ _ => false
    is_role := fun _ => false }

/-- A connection whose handshake succeeds and whose RCPT replies are `rs`. -/
def okConn (rs : List RcptRes) : ConnScript :=
  { connectRes := .reply 220, ehloRes := .ok, mailRes := .reply 250, rcptRes := rs }

/-- A connection greeted with code 554 instead of 220: `start` fails with
reason `invalid_smtp`. -/
def badConn : ConnScript :=
  { connectRes := .reply 554, ehloRes := .ok, mailRes := .reply 250, rcptRes := [] }

/-- DNS oracle for a single domain `x` served by `mx1`. -/
def dnsX : String → Except Unit (List (String × Nat)) :=
  fun q => if q = "x" then .ok [("mx1", 10)] else .error ()

/-- World for C1: `mx1` accepts the SMTP handshake and then times out on
the catch-all probe's RCPT. -/
def W1 : World :=
  { dns := dnsX
    conns := fun h => if h = "mx1" then [okConn [.sockTimeout]] else []
    uuids := fun _ => "u" }

/-- World for the C2 witness: the probe is rejected (550), the individual
recipient batch is accepted (250) on a second connection. -/
def W2 : World :=
  { dns := dnsX
    conns := fun h => if h = "mx1" then [okConn [.reply 550], okConn [.reply 250]] else []
    uuids := fun _ => "u" }

/-- World for C3: domains `x` (exchange `mx1`) and `y` (exchange `mx2`),
every server accepts every RCPT (catch-all everywhere). -/
def W3 : World :=
  { dns := fun q =>
      if q = "x" then .ok [("mx1", 10)]
      else if q = "y" then .ok [("mx2", 10)] else .error ()
    conns := fun h =>
      if h = "mx1" then [okConn [.reply 250], okConn [.reply 250], okConn [.reply 250]]
      else if h = "mx2" then [okConn [.reply 250]] else []
    uuids := fun _ => "u" }

/-- World for C7: domain `x` has two exchanges; the first answers every
connection with a 554 greeting (`invalid_smtp`), the second would accept
everything. -/
def W7 : World :=
  { dns := fun q => if q = "x" then .ok [("mx1", 5), ("mx2", 10)] else .error ()
    conns := fun h =>
      if h = "mx1" then [badConn, badConn]
      else if h = "mx2" then [okConn [.reply 250]] else []
    uuids := fun _ => "u" }

/-- World with no DNS answers and no reachable hosts. -/
def Wempty : World :=
  { dns := fun _ => .error (), conns := fun _ => [], uuids := fun _ => "u" }

/-- Session about to receive a 554 RCPT reply, with one fresh connection
available for the automatic restart. -/
def stC5 : SessState :=
  ⟨[okConn [.reply 250]], some [.reply 554], 0⟩

/-- Network state of phase 2 at the start of the C7 witness scenario. -/
def stC7 : NetState :=
  ⟨W7.conns, [], 0⟩

/-- DNS oracle for the C9 witness: an unsorted answer with a duplicated
preference (20), to exercise both sorting and stability. -/
def dnsC9 : String → Except Unit (List (String × Nat)) :=
  fun q => if q = "x" then .ok [("m2.", 20), ("m1.", 10), ("m3.", 20)] else .error ()

/-- Result records of the C2 witness run. -/
def c2run : List EmailAddress :=
  (inspect_list Ctest W2 ["a@x"]).result.getD []

/-- Result records of the C8 witness run. -/
def c8run : List EmailAddress :=
  (inspect_list Ctest W3 ["a@x", "b@y", "c@x"]).result.getD []

/-- Result records of the C10 witness run. -/
def c10run : List EmailAddress :=
  (inspect_list Ctest Wempty ["nope"]).result.getD []

/-! ### Session-level lemmas -/

/-- After the session went inactive, every remaining recipient is yielded
as not accepted and the state is untouched. -/
theorem recipients_inactive (l : List String) (st : SessState) :
    SMTPSession.recipients st false l = (l.map (fun a => (a, false)), none, st) := by
  induction l with
  | nil => rfl
  | cons a rest ih => simp [SMTPSession.recipients, ih]

/-- Starting a session never changes the ghost restart counter. -/
theorem start_restarts (st : SessState) :
    (SMTPSession.start st).2.restarts = st.restarts := by
  rcases st with ⟨scripts, current, restarts⟩
  cases scripts with
  | nil => rfl
  | cons att rest =>
    rcases att with ⟨cr, er, mr, rr⟩
    cases cr with
    | sockTimeout => rfl
    | sockErr => rfl
    | disconnected => rfl
    | reply c =>
      by_cases hc : c = 220
      · subst hc
        cases er with
        | heloErr => rfl
        | sockTimeout => rfl
        | disconnected => rfl
        | ok =>
          cases mr with
          | sockTimeout => rfl
          | disconnected => rfl
          | reply mc =>
            by_cases hmc : mc = 250
            · subst hmc; rfl
            · simp [SMTPSession.start, hmc]
      · simp [SMTPSession.start, hc]

/-- Restarting a session bumps the ghost restart counter by exactly one. -/
theorem restart_restarts (st : SessState) :
    (SMTPSession.restart st).2.restarts = st.restarts + 1 := by
  unfold SMTPSession.restart
  rw [start_restarts]
  rfl

/-- A RCPT reply 552/554 is yielded as not accepted and the session then
restarts before continuing with the following recipients only. -/
theorem recipients_552_554 (st : SessState) (x : String) (rest : List String)
    (c : Nat) (rs : List RcptRes)
    (hcur : st.current = some (RcptRes.reply c :: rs)) (hc : c = 552 ∨ c = 554) :
    ∃ e2 st2,
      SMTPSession.restart { st with current := some rs } = (e2, st2) ∧
      st2.restarts = st.restarts + 1 ∧
      ((e2 ≠ none ∧ SMTPSession.recipients st true (x :: rest) = ([(x, false)], e2, st2)) ∨
        (e2 = none ∧ SMTPSession.recipients st true (x :: rest)
          = ((x, false) :: (SMTPSession.recipients st2 true rest).1,
            (SMTPSession.recipients st2 true rest).2.1,
            (SMTPSession.recipients st2 true rest).2.2))) := by
  rcases hres : SMTPSession.restart { st with current := some rs } with ⟨e2, st2⟩
  have hrest : st2.restarts = st.restarts + 1 := by
    have := restart_restarts { st with current := some rs }
    rw [hres] at this
    exact this
  refine ⟨e2, st2, rfl, hrest, ?_⟩
  rcases hc with rfl | rfl
  all_goals
    rcases e2 with _ | e
    · right
      rcases hr2 : SMTPSession.recipients st2 true rest with ⟨ys, e3, st3⟩
      simp [SMTPSession.recipients, SMTPSession.rcpt, hcur, hres, hr2]
    · left
      simp [SMTPSession.recipients, SMTPSession.rcpt, hcur, hres]

/-- A RCPT that raises drops its recipient from the yielded pairs; the
rest of the batch is yielded not-accepted with the state untouched apart
from the closed connection. -/
theorem recipients_drop_raiser (st : SessState) (x : String) (rest : List String)
    (r : RcptRes) (rs : List RcptRes)
    (hcur : st.current = some (r :: rs)) (hr : r = .sockTimeout ∨ r = .disconnected) :
    SMTPSession.recipients st true (x :: rest)
      = (rest.map (fun a => (a, false)), none, { st with current := none }) := by
  rcases hr with rfl | rfl <;>
    simp [SMTPSession.recipients, SMTPSession.rcpt, hcur, SMTPSession.quit,
      recipients_inactive]

/-! ### Claim C1 -/

/-- C1 (code bug witnessed): with one valid input address whose exchange
accepts the SMTP handshake and then times out on the catch-all probe's
RCPT, the probe generator finishes without yielding, `.next()` raises
`StopIteration`, and `inspect_list` returns no result list at all
instead of one record per input address. -/
theorem c1_stopiteration_no_results :
    (inspect_list Ctest W1 ["a@x"]).result = none := by
  rfl

/-! ### Claim C4 -/

/-- C4 (code bug witnessed): in the Closed-to-Connected transition, a TCP
connect that raises `socket.timeout` is caught by the source's
`except socket.error` handler (in Python 2 `socket.timeout` is a subclass
of `socket.error`), so it fails with reason `no_connect`, not the
`timeout` the claim states; a plain socket-level failure gives
`no_connect` and a greeting code other than 220 gives `invalid_smtp` as
the claim states. -/
theorem c4_connect_timeout_yields_no_connect :
    (SMTPSession.start ⟨[⟨.sockTimeout, .ok, .reply 250, []⟩], none, 0⟩).1
      = some "no_connect" ∧
    (SMTPSession.start ⟨[⟨.sockErr, .ok, .reply 250, []⟩], none, 0⟩).1
      = some "no_connect" ∧
    (SMTPSession.start ⟨[badConn], none, 0⟩).1 = some "invalid_smtp" := by
  exact ⟨rfl, rfl, rfl⟩

/-! ### Claim C5 -/

/-- C5 counterexample: a server that replies 554 to the first RCPT and
250 to every RCPT on the reconnected session yields `rejected_email` for
that recipient — not the `accepted_email` the claim states — even though
exactly one reconnect happened; the 554 recipient is never retried. -/
theorem c5_counterexample :
    (verify_smtp_recipients [okConn [.reply 554], okConn [.reply 250]] ["r@x"]).1
      = [("r@x", false, "rejected_email")] ∧
    (verify_smtp_recipients [okConn [.reply 554], okConn [.reply 250]] ["r@x"]).2.restarts
      = 1 := by
  exact ⟨rfl, rfl⟩

/-- C5 (amended): on a 552/554 RCPT reply the recipient is reported as
not accepted (no retry of that recipient), the session is torn down and
restarted exactly once, and probing continues with the following
recipients on the fresh connection (or the batch ends with the restart's
`SMTPSessionError` if the restart fails). -/
theorem c5_reconnect_skips_recipient (st : SessState) (x : String) (rest : List String)
    (c : Nat) (rs : List RcptRes)
    (hcur : st.current = some (RcptRes.reply c :: rs)) (hc : c = 552 ∨ c = 554) :
    ∃ e2 st2,
      SMTPSession.restart { st with current := some rs } = (e2, st2) ∧
      st2.restarts = st.restarts + 1 ∧
      ((e2 ≠ none ∧ SMTPSession.recipients st true (x :: rest) = ([(x, false)], e2, st2)) ∨
        (e2 = none ∧ SMTPSession.recipients st true (x :: rest)
          = ((x, false) :: (SMTPSession.recipients st2 true rest).1,
            (SMTPSession.recipients st2 true rest).2.1,
            (SMTPSession.recipients st2 true rest).2.2))) :=
  recipients_552_554 st x rest c rs hcur hc

/-- C5 witness: the amended statement at a concrete 554 session. -/
theorem c5_witness :
    stC5.current = some (RcptRes.reply 554 :: []) ∧
    ∃ e2 st2,
      SMTPSession.restart { stC5 with current := some [] } = (e2, st2) ∧
      st2.restarts = stC5.restarts + 1 ∧
      ((e2 ≠ none ∧ SMTPSession.recipients stC5 true ["x@d"] = ([("x@d", false)], e2, st2)) ∨
        (e2 = none ∧ SMTPSession.recipients stC5 true ["x@d"]
          = (("x@d", false) :: (SMTPSession.recipients st2 true []).1,
            (SMTPSession.recipients st2 true []).2.1,
            (SMTPSession.recipients st2 true []).2.2))) :=
  ⟨rfl, c5_reconnect_skips_recipient stC5 "x@d" [] 554 [] rfl (Or.inr rfl)⟩

/-! ### Claim C6 -/

/-- C6 counterexample: with a batch of two recipients whose first RCPT
times out, only one triple is produced — the recipient whose probe raised
is missing from the batch's results, contradicting the claim that every
remaining recipient (the raiser included) is reported. -/
theorem c6_counterexample :
    (verify_smtp_recipients [okConn [.sockTimeout]] ["a@x", "b@x"]).1
      = [("b@x", false, "rejected_email")] := by
  rfl

/-- C6 (amended): when the first RCPT of a started batch raises (timeout
or disconnect), the raising recipient is omitted from the batch's
results; each later recipient is reported not-accepted with reason
`rejected_email`, and no further connection attempt or restart happens
(the final session state still holds the untouched remaining scripts). -/
theorem c6_raiser_dropped_tail_reported (c : ConnScript) (more : List ConnScript)
    (x : String) (rest : List String) (r : RcptRes) (rs : List RcptRes)
    (hconn : c.connectRes = .reply 220) (hehlo : c.ehloRes = .ok)
    (hmail : c.mailRes = .reply 250) (hrcpt : c.rcptRes = r :: rs)
    (hr : r = .sockTimeout ∨ r = .disconnected) :
    (verify_smtp_recipients (c :: more) (x :: rest)).1
      = rest.map (fun a => (a, false, "rejected_email")) ∧
    (verify_smtp_recipients (c :: more) (x :: rest)).2 = ⟨more, none, 0⟩ := by
  rcases c with ⟨cr, er, mr, rr⟩
  simp only at hconn hehlo hmail hrcpt
  subst hconn; subst hehlo; subst hmail; subst hrcpt
  have hstart : SMTPSession.start ⟨⟨.reply 220, .ok, .reply 250, r :: rs⟩ :: more, none, 0⟩
      = (none, ⟨more, some (r :: rs), 0⟩) := rfl
  have hdrop := recipients_drop_raiser ⟨more, some (r :: rs), 0⟩ x rest r rs rfl hr
  constructor
  · simp [verify_smtp_recipients, hstart, hdrop, List.map_map, Function.comp]
  · simp [verify_smtp_recipients, hstart, hdrop, SMTPSession.quit]

/-- C6 witness: the amended statement at a concrete two-recipient batch
whose first RCPT times out. -/
theorem c6_witness :
    (okConn [.sockTimeout]).connectRes = .reply 220 ∧
    (okConn [.sockTimeout]).ehloRes = .ok ∧
    (okConn [.sockTimeout]).mailRes = .reply 250 ∧
    (okConn [.sockTimeout]).rcptRes = RcptRes.sockTimeout :: [] ∧
    (verify_smtp_recipients [okConn [.sockTimeout]] ["a@x", "b@x"]).1
      = ["b@x"].map (fun a => (a, false, "rejected_email")) ∧
    (verify_smtp_recipients [okConn [.sockTimeout]] ["a@x", "b@x"]).2 = ⟨[], none, 0⟩ :=
  ⟨rfl, rfl, rfl, rfl,
    c6_raiser_dropped_tail_reported (okConn [.sockTimeout]) [] "a@x" ["b@x"]
      RcptRes.sockTimeout [] rfl rfl rfl rfl (Or.inl rfl)⟩

/-! ### Claim C7 -/

/-- C7 counterexample: domain `x` has exchanges `mx1` (preference 5) and
`mx2` (preference 10); `mx1` fails the handshake with `invalid_smtp` on
every connection, `mx2` would accept everything.  The probe log shows
that after the `invalid_smtp` probe the orchestrator immediately probed
the real recipients on the same dead exchange and never contacted `mx2`,
and the address ends with reason `invalid_smtp` — there is no fallback on
`invalid_smtp`, contradicting the claim that iteration stops only on an
accept or reject. -/
theorem c7_counterexample :
    (inspect_list Ctest W7 ["a@x"]).probeLog
      = [.probe "mx1" "u@x", .batch "mx1" ["a@x"]] ∧
    ((inspect_list Ctest W7 ["a@x"]).result.getD []).map (fun a => a.reason)
      = [some "invalid_smtp"] := by
  exact ⟨rfl, rfl⟩

/-- C7 (amended): only `no_connect` triggers fallback to the next
exchange; a catch-all probe that comes back with any other non-accepted
reason (such as `invalid_smtp` or `timeout`) stops the iteration at that
exchange, and the individual recipients are then probed against that same
exchange — later exchanges are never contacted. -/
theorem c7_non_noconnect_stops_iteration (st : NetState) (pe : String)
    (emails : List String) (g : List EmailAddress) (ex : Exchange) (rest : List Exchange)
    (e : String) (r : String)
    (hprobe : (verify_smtp_recipient (st.net ex.exchange) pe).1 = some (e, false, r))
    (hr : r ≠ "no_connect") :
    ∃ ts st2,
      exchangeLoop pe emails st g (ex :: rest) = (zipAssign ex.exchange g ts, st2, false) ∧
      st2.probeLog = st.probeLog
        ++ [ProbeEvent.probe ex.exchange pe, ProbeEvent.batch ex.exchange emails] := by
  simp only [exchangeLoop, hprobe, hr, if_false, Bool.false_eq_true, ite_false]
  refine ⟨_, _, rfl, ?_⟩
  simp

/-- C7 witness: the amended statement at the concrete `invalid_smtp`
exchange of `W7`. -/
theorem c7_witness :
    (verify_smtp_recipient (stC7.net "mx1") "u@x").1 = some ("u@x", false, "invalid_smtp") ∧
    ∃ ts st2,
      exchangeLoop "u@x" ["a@x"] stC7 [newAddress "a@x"] [⟨"mx1", 5⟩, ⟨"mx2", 10⟩]
        = (zipAssign "mx1" [newAddress "a@x"] ts, st2, false) ∧
      st2.probeLog = stC7.probeLog
        ++ [ProbeEvent.probe "mx1" "u@x", ProbeEvent.batch "mx1" ["a@x"]] :=
  ⟨by decide,
    c7_non_noconnect_stops_iteration stC7 "u@x" ["a@x"] [newAddress "a@x"]
      ⟨"mx1", 5⟩ [⟨"mx2", 10⟩] "u@x" "invalid_smtp" (by decide) (by decide)⟩

/-! ### Claim C3 -/

/-- An accepted probe can only carry reason `accepted_email`: the
single-recipient shortcut builds its triple as
`(addr, accepted, 'accepted_email' if accepted else 'rejected_email')`,
and the start-failure triple is never accepted. -/
theorem verify_smtp_recipient_accepted_reason (scripts : List ConnScript)
    (addr e r : String)
    (h : (verify_smtp_recipient scripts addr).1 = some (e, true, r)) :
    r = "accepted_email" := by
  unfold verify_smtp_recipient at h
  rcases hs : SMTPSession.start ⟨scripts, none, 0⟩ with ⟨e1, st1⟩
  rcases e1 with _ | reason
  · simp only [hs] at h
    rcases hr : SMTPSession.rcpt st1 with ⟨rr, st2⟩
    simp only [hr] at h
    rcases rr with c | _ | _
    · simp only [Option.some.injEq, Prod.mk.injEq] at h
      obtain ⟨-, h2, h3⟩ := h
      rw [if_pos h2] at h3
      exact h3.symm
    · simp at h
    · simp at h
  · simp only [hs] at h
    simp at h

/-- The exchange loop realises one of the four `GroupOutcome` shapes:
its ghost log extends the incoming log with catch-all probes of the
synthetic address at an initial segment of the exchanges, followed by at
most one batch of the real recipients (and only when the decisive probe
was declined); an accepted probe marks the whole group and performs no
individual probing. -/
theorem exchangeLoop_outcome (pe : String) (emails : List String) :
    ∀ (exs : List Exchange) (st : NetState) (g : List EmailAddress),
      ∃ d, (exchangeLoop pe emails st g exs).2.1.probeLog = st.probeLog ++ d ∧
        (exchangeLoop pe emails st g exs).2.1.uuidCount = st.uuidCount ∧
        GroupOutcome pe emails g exs d (exchangeLoop pe emails st g exs).1
          (exchangeLoop pe emails st g exs).2.2 := by
  intro exs
  induction exs with
  | nil =>
    intro st g
    refine ⟨[], by simp [exchangeLoop], by simp [exchangeLoop], ?_⟩
    exact GroupOutcome.allNoConnect
  | cons ex rest ih =>
    intro st g
    rcases hpr : (verify_smtp_recipient (st.net ex.exchange) pe).1 with _ | t
    · refine ⟨[ProbeEvent.probe ex.exchange pe], ?_, ?_, ?_⟩
      · simp [exchangeLoop, hpr]
      · simp [exchangeLoop, hpr]
      · have hout : (exchangeLoop pe emails st g (ex :: rest)).1 = g := by
          simp [exchangeLoop, hpr]
        have hexn : (exchangeLoop pe emails st g (ex :: rest)).2.2 = true := by
          simp [exchangeLoop, hpr]
        rw [hout, hexn]
        exact GroupOutcome.probeRaised [] ex.exchange
          (rest.map (fun e => e.exchange)) (by simp)
    · rcases t with ⟨e, ca, r⟩
      by_cases hnc : r = "no_connect"
      · subst hnc
        have hstep : exchangeLoop pe emails st g (ex :: rest)
            = exchangeLoop pe emails
              { st with
                net := updateNet st.net ex.exchange
                  (verify_smtp_recipient (st.net ex.exchange) pe).2.scripts
                probeLog := st.probeLog ++ [ProbeEvent.probe ex.exchange pe] } g rest := by
          simp [exchangeLoop, hpr]
        obtain ⟨d, h1, h2, h3⟩ := ih
          { st with
            net := updateNet st.net ex.exchange
              (verify_smtp_recipient (st.net ex.exchange) pe).2.scripts
            probeLog := st.probeLog ++ [ProbeEvent.probe ex.exchange pe] } g
        rcases hE : exchangeLoop pe emails
            { st with
              net := updateNet st.net ex.exchange
                (verify_smtp_recipient (st.net ex.exchange) pe).2.scripts
              probeLog := st.probeLog ++ [ProbeEvent.probe ex.exchange pe] } g rest
          with ⟨out1, st1, exn1⟩
        rw [hE] at h1 h2 h3
        simp only at h1 h2 h3
        refine ⟨ProbeEvent.probe ex.exchange pe :: d, ?_, ?_, ?_⟩
        · rw [hstep, hE]
          simp only
          rw [h1]
          simp
        · rw [hstep, hE]
          simpa using h2
        · rw [hstep, hE]
          simp only
          cases h3 with
          | allNoConnect =>
            exact GroupOutcome.allNoConnect
          | probeRaised hosts h tail hh =>
            exact GroupOutcome.probeRaised (ex.exchange :: hosts) h tail (by simp [hh])
          | catchAllAccepted hosts h tail hh =>
            exact GroupOutcome.catchAllAccepted (ex.exchange :: hosts) h tail
              (by simp [hh])
          | individual hosts h tail ts hh =>
            exact GroupOutcome.individual (ex.exchange :: hosts) h tail ts (by simp [hh])
      · cases ca with
        | true =>
          have hacc : r = "accepted_email" :=
            verify_smtp_recipient_accepted_reason (st.net ex.exchange) pe e r hpr
          subst hacc
          refine ⟨[ProbeEvent.probe ex.exchange pe], ?_, ?_, ?_⟩
          · simp [exchangeLoop, hpr, hnc]
          · simp [exchangeLoop, hpr, hnc]
          · have hout : (exchangeLoop pe emails st g (ex :: rest)).1
                = g.map (fun a => { a with reason := some "accepted_email", catch_all := true, exchange := some ex.exchange }) := by
              simp [exchangeLoop, hpr, hnc]
            have hexn : (exchangeLoop pe emails st g (ex :: rest)).2.2 = false := by
              simp [exchangeLoop, hpr, hnc]
            rw [hout, hexn]
            exact GroupOutcome.catchAllAccepted [] ex.exchange
              (rest.map (fun e => e.exchange)) (by simp)
        | false =>
          refine ⟨[ProbeEvent.probe ex.exchange pe, ProbeEvent.batch ex.exchange emails],
            ?_, ?_, ?_⟩
          · simp [exchangeLoop, hpr, hnc]
          · simp [exchangeLoop, hpr, hnc]
          · have hout : (exchangeLoop pe emails st g (ex :: rest)).1
                = zipAssign ex.exchange g
                    (verify_smtp_recipients
                      (updateNet st.net ex.exchange
                        (verify_smtp_recipient (st.net ex.exchange) pe).2.scripts
                        ex.exchange)
                      emails).1 := by
              simp [exchangeLoop, hpr, hnc]
            have hexn : (exchangeLoop pe emails st g (ex :: rest)).2.2 = false := by
              simp [exchangeLoop, hpr, hnc]
            rw [hout, hexn]
            exact GroupOutcome.individual [] ex.exchange
              (rest.map (fun e => e.exchange)) _ (by simp)

/-- C3 counterexample: `itertools.groupby` groups only consecutive equal
keys, so for the input `["a@x", "b@y", "c@x"]` the two addresses of
domain `x` are processed as two separate groups: the catch-all probe of
`x`'s exchange is performed twice, contradicting the claim that all
addresses sharing a domain form one group with exactly one synthetic
probe. -/
theorem c3_counterexample :
    (inspect_list Ctest W3 ["a@x", "b@y", "c@x"]).probeLog
      = [.probe "mx1" "u@x", .probe "mx2" "u@y", .probe "mx1" "u@x"] ∧
    ((inspect_list Ctest W3 ["a@x", "b@y", "c@x"]).probeLog.filter (isProbeOf "u@x")).length
      = 2 := by
  exact ⟨rfl, rfl⟩

/-- C3 (amended): the addresses with exchanges that share a domain and
are consecutive form one group; processing a group consumes exactly one
uuid token (one synthetic probe address), performs catch-all probes of
only that synthetic address over an initial segment of the group's
exchanges, and — when the probe is accepted — marks every address of the
group with `reason = accepted_email`, `isCatchAll = true` and the probed
host, with no individual recipient probing for that group
(`GroupOutcome`). -/
theorem c3_one_probe_then_mark_all (w : World) (st : NetState) (g : List EmailAddress) :
    (processGroup w st g).2.1.uuidCount = st.uuidCount + 1 ∧
    ∃ d, (processGroup w st g).2.1.probeLog = st.probeLog ++ d ∧
      GroupOutcome (w.uuids st.uuidCount ++ "@" ++ optStr g.headI.domain)
        (g.map (fun a => optStr a.email)) g (g.headI.all_exchanges.getD [])
        d (processGroup w st g).1 (processGroup w st g).2.2 := by
  obtain ⟨d, h1, h2, h3⟩ :=
    exchangeLoop_outcome (w.uuids st.uuidCount ++ "@" ++ optStr g.headI.domain)
      (g.map (fun a => optStr a.email)) (g.headI.all_exchanges.getD [])
      { st with uuidCount := st.uuidCount + 1 } g
  refine ⟨?_, d, ?_, ?_⟩
  · simp only [processGroup]
    rw [h2]
  · simp only [processGroup]
    simpa using h1
  · simp only [processGroup]
    exact h3

/-! ### Field-preservation lemmas for the pipeline -/

/-- Phase 3 only rewrites `status`. -/
theorem frozenPart_classify (a : EmailAddress) :
    frozenPart (classifyStatus a) = frozenPart a := by
  unfold classifyStatus
  split_ifs <;> rfl

/-- The `izip` assignment only rewrites `reason`, `catch_all`,
`exchange`. -/
theorem zipAssign_map_frozen (h : String) :
    ∀ (g : List EmailAddress) (ts : List (String × Bool × String)),
      (zipAssign h g ts).map frozenPart = g.map frozenPart := by
  intro g
  induction g with
  | nil => intro ts; cases ts <;> rfl
  | cons a as ih =>
    intro ts
    cases ts with
    | nil => rfl
    | cons t ts2 => simp [zipAssign, ih, frozenPart]

/-- The exchange loop only rewrites `reason`, `catch_all`, `exchange`. -/
theorem exchangeLoop_map_frozen (pe : String) (emails : List String) :
    ∀ (exs : List Exchange) (st : NetState) (g : List EmailAddress),
      ((exchangeLoop pe emails st g exs).1).map frozenPart = g.map frozenPart := by
  intro exs
  induction exs with
  | nil => intro st g; simp [exchangeLoop]
  | cons ex rest ih =>
    intro st g
    rcases hpr : (verify_smtp_recipient (st.net ex.exchange) pe).1 with _ | t
    · simp [exchangeLoop, hpr]
    · rcases t with ⟨e, ca, r⟩
      by_cases hnc : r = "no_connect"
      · subst hnc
        have hstep : exchangeLoop pe emails st g (ex :: rest)
            = exchangeLoop pe emails
              { st with
                net := updateNet st.net ex.exchange
                  (verify_smtp_recipient (st.net ex.exchange) pe).2.scripts
                probeLog := st.probeLog ++ [ProbeEvent.probe ex.exchange pe] } g rest := by
          simp [exchangeLoop, hpr]
        rw [hstep]
        exact ih _ _
      · cases ca with
        | true =>
          have hcomp : frozenPart ∘
              (fun a => { a with reason := some r, catch_all := true, exchange := some ex.exchange })
                = frozenPart := by
            funext a
            rfl
          have hout : (exchangeLoop pe emails st g (ex :: rest)).1
              = g.map (fun a => { a with reason := some r, catch_all := true, exchange := some ex.exchange }) := by
            simp [exchangeLoop, hpr, hnc]
          rw [hout, List.map_map, hcomp]
        | false =>
          have hout : (exchangeLoop pe emails st g (ex :: rest)).1
              = zipAssign ex.exchange g
                  (verify_smtp_recipients
                    (updateNet st.net ex.exchange
                      (verify_smtp_recipient (st.net ex.exchange) pe).2.scripts
                      ex.exchange)
                    emails).1 := by
            simp [exchangeLoop, hpr, hnc]
          rw [hout, zipAssign_map_frozen]

/-- Group processing only rewrites `reason`, `catch_all`, `exchange`. -/
theorem processGroup_map_frozen (w : World) (st : NetState) (g : List EmailAddress) :
    ((processGroup w st g).1).map frozenPart = g.map frozenPart := by
  simp only [processGroup]
  exact exchangeLoop_map_frozen _ _ _ _ _

/-- Phase 2 without a propagated `StopIteration` only rewrites `reason`,
`catch_all`, `exchange` of the concatenated groups. -/
theorem inspectPhase2_map_frozen (w : World) :
    ∀ (gs : List (List EmailAddress)) (st : NetState),
      (inspectPhase2 w st gs).2.2 = false →
      ((inspectPhase2 w st gs).1).map frozenPart = (gs.flatten).map frozenPart := by
  intro gs
  induction gs with
  | nil => intro st _; simp [inspectPhase2]
  | cons g rest ih =>
    intro st h
    by_cases hx : (processGroup w st g).2.2
    · rw [inspectPhase2] at h
      simp [hx] at h
    · rw [inspectPhase2] at h ⊢
      simp only [hx, if_false, Bool.false_eq_true] at h ⊢
      simp only [List.flatten_cons, List.map_append]
      rw [processGroup_map_frozen, ih _ h]

/-- The `groupby` groups concatenate back to the original list. -/
theorem groupRuns_join {α β : Type} [DecidableEq β] (key : α → β) :
    ∀ l : List α, (groupRuns key l).flatten = l := by
  intro l
  induction l with
  | nil => rfl
  | cons a rest ih =>
    rw [groupRuns]
    rcases hgr : groupRuns key rest with _ | ⟨g, gs⟩
    · rw [hgr] at ih
      simp at ih
      simp [ih]
    · rw [hgr] at ih
      rcases g with _ | ⟨b, g2⟩
      · simpa [List.flatten_cons] using ih
      · by_cases hk : key a = key b <;> simp [hk, List.flatten_cons] <;>
          simpa [List.flatten_cons] using ih

/-- Reassembling the updated group members preserves the frozen fields
positionally. -/
theorem mergeBack_map_frozen :
    ∀ (orig upd : List EmailAddress),
      upd.map frozenPart = (orig.filter hasExchanges).map frozenPart →
      (mergeBack orig upd).map frozenPart = orig.map frozenPart := by
  intro orig
  induction orig with
  | nil => intro upd _; rfl
  | cons a rest ih =>
    intro upd h
    by_cases hx : hasExchanges a
    · rw [List.filter_cons_of_pos hx] at h
      cases upd with
      | nil => simp at h
      | cons u us =>
        simp only [List.map_cons, List.cons.injEq] at h
        simp only [mergeBack, hx, if_true, List.map_cons]
        exact List.cons_eq_cons.mpr ⟨h.1, ih us h.2⟩
    · rw [List.filter_cons_of_neg hx] at h
      simp only [mergeBack, hx, if_false, List.map_cons, Bool.false_eq_true]
      rw [ih upd h]

/-- Phase 3 preserves the frozen fields. -/
theorem inspectPhase3_map_frozen (l : List EmailAddress) :
    (inspectPhase3 l).map frozenPart = l.map frozenPart := by
  unfold inspectPhase3
  rw [List.map_map]
  have hcomp : frozenPart ∘ (fun a => if hasExchanges a then classifyStatus a else a)
      = frozenPart := by
    funext a
    by_cases h : hasExchanges a <;> simp [h, frozenPart_classify]
  rw [hcomp]

/-- Phase 1 keeps every input query in place. -/
theorem inspectPhase1_query (C : Collaborators) (w : World) (st : MxCache)
    (a : EmailAddress) : ((inspectPhase1 C w st a).1).query = a.query := by
  unfold inspectPhase1
  rcases hl : lookupMx st.cache ((C.split_email a.query).2) with _ | l <;>
    simp [hl] <;> split_ifs <;> rfl

/-- Phase 1 over the list keeps the queries in order. -/
theorem inspectPhase1All_map_query (C : Collaborators) (w : World) :
    ∀ (l : List EmailAddress) (st : MxCache),
      ((inspectPhase1All C w st l).1).map (fun a => a.query)
        = l.map (fun a => a.query) := by
  intro l
  induction l with
  | nil => intro st; rfl
  | cons a rest ih =>
    intro st
    simp [inspectPhase1All, inspectPhase1_query, ih]

/-- A returned result list is phase 3 applied to the reassembled
addresses, and phase 2 finished without a propagated `StopIteration`. -/
theorem inspect_list_result_eq (C : Collaborators) (w : World) (qs : List String)
    (rs : List EmailAddress) (h : (inspect_list C w qs).result = some rs) :
    rs = inspectPhase3 (mergeBack
      (inspectPhase1All C w ⟨[], []⟩ (qs.map newAddress)).1
      (inspectPhase2 w ⟨w.conns, [], 0⟩
        (groupRuns (fun a => a.domain)
          (((inspectPhase1All C w ⟨[], []⟩ (qs.map newAddress)).1).filter hasExchanges))).1) ∧
    (inspectPhase2 w ⟨w.conns, [], 0⟩
      (groupRuns (fun a => a.domain)
        (((inspectPhase1All C w ⟨[], []⟩ (qs.map newAddress)).1).filter hasExchanges))).2.2
      = false := by
  simp only [inspect_list] at h
  by_cases hx : (inspectPhase2 w ⟨w.conns, [], 0⟩
      (groupRuns (fun a => a.domain)
        (((inspectPhase1All C w ⟨[], []⟩ (qs.map newAddress)).1).filter hasExchanges))).2.2
  · simp [hx] at h
  · simp only [hx, if_false, Bool.false_eq_true, Option.some.injEq] at h
    exact ⟨h.symm, by simpa using hx⟩

/-- End to end, the pipeline only rewrites `reason`, `catch_all`,
`exchange`, `status` of the phase-1 records. -/
theorem inspect_list_frozen (C : Collaborators) (w : World) (qs : List String)
    (rs : List EmailAddress) (h : (inspect_list C w qs).result = some rs) :
    rs.map frozenPart
      = ((inspectPhase1All C w ⟨[], []⟩ (qs.map newAddress)).1).map frozenPart := by
  obtain ⟨hrs, hexn⟩ := inspect_list_result_eq C w qs rs h
  have hupd : ((inspectPhase2 w ⟨w.conns, [], 0⟩
      (groupRuns (fun a => a.domain)
        (((inspectPhase1All C w ⟨[], []⟩ (qs.map newAddress)).1).filter hasExchanges))).1).map
        frozenPart
      = ((((inspectPhase1All C w ⟨[], []⟩ (qs.map newAddress)).1).filter
          hasExchanges)).map frozenPart := by
    rw [inspectPhase2_map_frozen _ _ _ hexn, groupRuns_join]
  rw [hrs, inspectPhase3_map_frozen, mergeBack_map_frozen _ _ hupd]

/-- The returned records carry the input queries in input order. -/
theorem inspect_list_queries (C : Collaborators) (w : World) (qs : List String)
    (rs : List EmailAddress) (h : (inspect_list C w qs).result = some rs) :
    rs.map (fun a => a.query) = qs := by
  have hf := congrArg (List.map
    (fun t : String × Option Bool × Option (List Exchange) => t.1))
    (inspect_list_frozen C w qs rs h)
  simp only [List.map_map] at hf
  have h1 : (fun t : String × Option Bool × Option (List Exchange) => t.1) ∘ frozenPart
      = fun a : EmailAddress => a.query := by
    funext a
    rfl
  rw [h1] at hf
  rw [hf, inspectPhase1All_map_query]
  have h2 : ((fun a : EmailAddress => a.query) ∘ newAddress) = fun q : String => q := by
    funext q
    rfl
  simp [newAddress, h2]

/-! ### Claim C2 -/

/-- C2 (confirmed): for every address that reached phase 2 (its
`all_exchanges` is a non-empty list), the final status follows the
phase-3 classification: `accepted_email` with neither disposable nor
catch-all nor gibberish gives `deliverable`; `accepted_email` with
disposable or catch-all gives `risky`; any of the other terminal reasons
gives `undeliverable`. -/
theorem c2_status_classification (C : Collaborators) (w : World) (qs : List String)
    (rs : List EmailAddress) (a : EmailAddress)
    (hres : (inspect_list C w qs).result = some rs) (ha : a ∈ rs)
    (hex : hasExchanges a = true) :
    (a.reason = some "accepted_email" → a.disposable.getD false = false →
      a.catch_all = false → a.gibberish = false → a.status = "deliverable") ∧
    (a.reason = some "accepted_email" →
      (a.disposable.getD false = true ∨ a.catch_all = true) → a.status = "risky") ∧
    (a.reason = some "rejected_email" ∨ a.reason = some "no_connect" ∨
      a.reason = some "timeout" ∨ a.reason = some "invalid_smtp" →
      a.status = "undeliverable") := by
  obtain ⟨hrs, -⟩ := inspect_list_result_eq C w qs rs hres
  subst hrs
  rw [inspectPhase3] at ha
  obtain ⟨b, hb, hab⟩ := List.mem_map.mp ha
  by_cases hxb : hasExchanges b
  · rw [if_pos hxb] at hab
    subst hab
    unfold classifyStatus
    by_cases h1 : b.reason = some "accepted_email"
    · rw [if_pos h1]
      by_cases h2 : (b.disposable.getD false || b.gibberish || b.catch_all) = true
      · rw [if_pos h2]
        refine ⟨?_, ?_, ?_⟩
        · intro _ hd hc hg
          simp only at hd hc hg
          simp [hd, hc, hg] at h2
        · intro _ _
          rfl
        · intro hr
          simp only [h1] at hr
          rcases hr with hr | hr | hr | hr <;> exact absurd hr (by decide)
      · rw [if_neg h2]
        refine ⟨?_, ?_, ?_⟩
        · intro _ _ _ _
          rfl
        · intro _ hd
          simp only at hd
          rcases hd with hd | hd <;> simp [hd] at h2
        · intro hr
          simp only [h1] at hr
          rcases hr with hr | hr | hr | hr <;> exact absurd hr (by decide)
    · rw [if_neg h1]
      refine ⟨?_, ?_, ?_⟩
      · intro hr
        simp only at hr
        exact absurd hr h1
      · intro hr
        simp only at hr
        exact absurd hr h1
      · intro _
        rfl
  · rw [if_neg hxb] at hab
    subst hab
    exact absurd hex hxb

/-- C2 witness: a concrete run reaching a `deliverable` verdict through
the classification. -/
theorem c2_witness :
    (inspect_list Ctest W2 ["a@x"]).result = some c2run ∧
    c2run.headI ∈ c2run ∧ hasExchanges c2run.headI = true ∧
    c2run.headI.reason = some "accepted_email" ∧
    c2run.headI.status = "deliverable" :=
  ⟨by decide, by decide, by decide, by decide,
    (c2_status_classification Ctest W2 ["a@x"] c2run c2run.headI
        (by decide) (by decide) (by decide)).1
      (by decide) (by decide) (by decide) (by decide)⟩

/-! ### Claim C8 -/

/-- Explicit shape of the cache state after one phase-1 step. -/
theorem inspectPhase1_state (C : Collaborators) (w : World) (st : MxCache)
    (a : EmailAddress) :
    (inspectPhase1 C w st a).2
      = if C.is_valid_address a.query then
          match lookupMx st.cache ((C.split_email a.query).2) with
          | some _ => st
          | none =>
            { cache := ((C.split_email a.query).2,
                mxResult w ((C.split_email a.query).2)) :: st.cache
              log := st.log ++ [(C.split_email a.query).2] }
        else st := by
  unfold inspectPhase1
  by_cases hv : C.is_valid_address a.query <;> simp only [hv, if_true, if_false]
  · rcases hl : lookupMx st.cache ((C.split_email a.query).2) with _ | l <;>
      simp only [hl] <;> split_ifs <;> rfl
  · rfl

/-- One phase-1 step preserves the cache invariant; the log grows by the
address's domain exactly when the address is valid and its domain is not
cached yet. -/
theorem inspectPhase1_cacheInv (C : Collaborators) (w : World) (st : MxCache)
    (a : EmailAddress) (h : CacheInv w st) :
    CacheInv w (inspectPhase1 C w st a).2 ∧
    (∀ d, d ∈ (inspectPhase1 C w st a).2.log ↔
      d ∈ st.log ∨ (C.is_valid_address a.query = true ∧ (C.split_email a.query).2 = d)) := by
  obtain ⟨hnd, hmem, hval⟩ := h
  rw [inspectPhase1_state]
  by_cases hv : C.is_valid_address a.query
  · rw [if_pos hv]
    rcases hl : lookupMx st.cache ((C.split_email a.query).2) with _ | l
    · have hnotin : (C.split_email a.query).2 ∉ st.log := by
        intro hin
        have h2 := (hmem _).mp hin
        rw [hl] at h2
        simp at h2
      refine ⟨⟨?_, ?_, ?_⟩, ?_⟩
      · rw [List.nodup_append]
        refine ⟨hnd, List.nodup_singleton _, ?_⟩
        intro x hx hxd
        rw [List.mem_singleton] at hxd
        subst hxd
        exact hnotin hx
      · intro d
        simp only [lookupMx, List.mem_append, List.mem_singleton]
        by_cases hd : (C.split_email a.query).2 = d
        · simp [hd]
        · simp [hd, hmem d, Ne.symm hd]
      · intro d l2
        simp only [lookupMx]
        by_cases hd : (C.split_email a.query).2 = d
        · rw [if_pos hd]
          intro he
          rw [← hd]
          exact (Option.some.inj he).symm
        · rw [if_neg hd]
          exact hval d l2
      · intro d
        simp only [List.mem_append, List.mem_singleton]
        constructor
        · rintro (hd | hd)
          · exact Or.inl hd
          · exact Or.inr ⟨hv, hd.symm⟩
        · rintro (hd | ⟨-, hd⟩)
          · exact Or.inl hd
          · exact Or.inr hd.symm
    · have hin : (C.split_email a.query).2 ∈ st.log := by
        rw [hmem, hl]
        rfl
      refine ⟨⟨hnd, hmem, hval⟩, ?_⟩
      intro d
      constructor
      · exact fun hd => Or.inl hd
      · rintro (hd | ⟨-, hd⟩)
        · exact hd
        · rw [← hd]
          exact hin
  · rw [if_neg hv]
    refine ⟨⟨hnd, hmem, hval⟩, ?_⟩
    intro d
    constructor
    · exact fun hd => Or.inl hd
    · rintro (hd | ⟨hvv, -⟩)
      · exact hd
      · exact absurd hvv hv

/-- Phase 1 over the list preserves the cache invariant, and the log
collects exactly the domains of the valid addresses. -/
theorem inspectPhase1All_cacheInv (C : Collaborators) (w : World) :
    ∀ (l : List EmailAddress) (st : MxCache), CacheInv w st →
      CacheInv w (inspectPhase1All C w st l).2 ∧
      (∀ d, d ∈ (inspectPhase1All C w st l).2.log ↔
        d ∈ st.log ∨ ∃ a ∈ l, C.is_valid_address a.query = true ∧
          (C.split_email a.query).2 = d) := by
  intro l
  induction l with
  | nil =>
    intro st h
    refine ⟨h, ?_⟩
    simp [inspectPhase1All]
  | cons a rest ih =>
    intro st h
    obtain ⟨h1, h2⟩ := inspectPhase1_cacheInv C w st a h
    obtain ⟨h3, h4⟩ := ih _ h1
    have hstep : (inspectPhase1All C w st (a :: rest)).2
        = (inspectPhase1All C w (inspectPhase1 C w st a).2 rest).2 := by
      simp [inspectPhase1All]
    constructor
    · rw [hstep]
      exact h3
    · intro d
      rw [hstep, h4 d, h2 d]
      simp only [List.mem_cons, exists_eq_or_imp]
      tauto

/-- The `valid` flag a phase-1 step stores. -/
theorem inspectPhase1_valid (C : Collaborators) (w : World) (st : MxCache)
    (a : EmailAddress) :
    ((inspectPhase1 C w st a).1).valid = some (C.is_valid_address a.query) := by
  unfold inspectPhase1
  by_cases hv : C.is_valid_address a.query <;> simp only [hv, if_true, if_false]
  · rcases hl : lookupMx st.cache ((C.split_email a.query).2) with _ | l <;>
      simp only [hl] <;> split_ifs <;> rfl
  · rfl

/-- A valid address gets exactly the resolver's exchanges for its
query-domain (from the cache or from a fresh resolution). -/
theorem inspectPhase1_exchanges (C : Collaborators) (w : World) (st : MxCache)
    (a : EmailAddress) (h : CacheInv w st) (hv : C.is_valid_address a.query = true) :
    ((inspectPhase1 C w st a).1).all_exchanges
      = some (mxResult w ((C.split_email a.query).2)) := by
  obtain ⟨-, -, hval⟩ := h
  unfold inspectPhase1
  simp only [hv, if_true]
  rcases hl : lookupMx st.cache ((C.split_email a.query).2) with _ | l
  · simp only [hl]
    split_ifs <;> rfl
  · simp only [hl]
    have hlv := hval _ _ hl
    split_ifs <;> simp [hlv]

/-- Every valid record produced by phase 1 carries the resolver's answer
for its query-domain. -/
theorem inspectPhase1All_exchanges (C : Collaborators) (w : World) :
    ∀ (l : List EmailAddress) (st : MxCache), CacheInv w st →
      ∀ b ∈ (inspectPhase1All C w st l).1, b.valid = some true →
        b.all_exchanges = some (mxResult w ((C.split_email b.query).2)) := by
  intro l
  induction l with
  | nil =>
    intro st _ b hb
    simp [inspectPhase1All] at hb
  | cons a rest ih =>
    intro st h b hb hbv
    have hstep : (inspectPhase1All C w st (a :: rest)).1
        = (inspectPhase1 C w st a).1
          :: (inspectPhase1All C w (inspectPhase1 C w st a).2 rest).1 := by
      simp [inspectPhase1All]
    rw [hstep] at hb
    rcases List.mem_cons.mp hb with hb | hb
    · subst hb
      have hvv : C.is_valid_address a.query = true := by
        have hvf := inspectPhase1_valid C w st a
        rw [hvf] at hbv
        exact Option.some.inj hbv
      rw [inspectPhase1_query]
      exact inspectPhase1_exchanges C w st a h hvv
    · exact ih _ (inspectPhase1_cacheInv C w st a h).1 b hb hbv

/-- C8 (confirmed): within one `inspect_list` call MX resolution is
memoized per unique domain — the resolution log has no duplicates, a
domain is resolved exactly when some valid input address has it, and
every valid record carries the resolver's (single) answer for its
domain, so two addresses sharing a domain carry identical exchanges. -/
theorem c8_mx_memoized (C : Collaborators) (w : World) (qs : List String) :
    (inspect_list C w qs).mxLog.Nodup ∧
    (∀ d, d ∈ (inspect_list C w qs).mxLog ↔
      ∃ q ∈ qs, C.is_valid_address q = true ∧ (C.split_email q).2 = d) ∧
    (∀ rs, (inspect_list C w qs).result = some rs → ∀ a ∈ rs, a.valid = some true →
      a.all_exchanges = some (mxResult w ((C.split_email a.query).2))) := by
  have hinv0 : CacheInv w ⟨[], []⟩ := by
    refine ⟨List.nodup_nil, ?_, ?_⟩
    · intro d
      simp [lookupMx]
    · intro d l hl
      simp [lookupMx] at hl
  have hmxlog : (inspect_list C w qs).mxLog
      = (inspectPhase1All C w ⟨[], []⟩ (qs.map newAddress)).2.log := by
    simp only [inspect_list]
    split_ifs <;> rfl
  obtain ⟨hinv, hmem⟩ := inspectPhase1All_cacheInv C w (qs.map newAddress) ⟨[], []⟩ hinv0
  refine ⟨?_, ?_, ?_⟩
  · rw [hmxlog]
    exact hinv.1
  · intro d
    rw [hmxlog, hmem d]
    simp only [show (⟨[], []⟩ : MxCache).log = [] from rfl, List.not_mem_nil, false_or]
    constructor
    · rintro ⟨a, ha, hp⟩
      obtain ⟨q, hq, rfl⟩ := List.mem_map.mp ha
      exact ⟨q, hq, hp⟩
    · rintro ⟨q, hq, hp⟩
      exact ⟨newAddress q, List.mem_map_of_mem _ hq, hp⟩
  · intro rs hres a ha hav
    have hfr := inspect_list_frozen C w qs rs hres
    have hmm : frozenPart a
        ∈ ((inspectPhase1All C w ⟨[], []⟩ (qs.map newAddress)).1).map frozenPart := by
      rw [← hfr]
      exact List.mem_map_of_mem _ ha
    obtain ⟨b, hb, hba⟩ := List.mem_map.mp hmm
    have hq : b.query = a.query := congrArg (fun t => t.1) hba
    have hv : b.valid = a.valid := congrArg (fun t => t.2.1) hba
    have hx : b.all_exchanges = a.all_exchanges := congrArg (fun t => t.2.2) hba
    have hres2 := inspectPhase1All_exchanges C w (qs.map newAddress) ⟨[], []⟩ hinv0 b hb
      (by rw [hv, hav])
    rw [hq, hx] at hres2
    exact hres2

/-- C8 witness: the fact at the first record of a three-address run with
a repeated domain. -/
theorem c8_witness :
    (inspect_list Ctest W3 ["a@x", "b@y", "c@x"]).result = some c8run ∧
    c8run.headI ∈ c8run ∧ c8run.headI.valid = some true ∧
    c8run.headI.all_exchanges
      = some (mxResult W3 ((Ctest.split_email c8run.headI.query).2)) :=
  ⟨by decide, by decide, by decide,
    (c8_mx_memoized Ctest W3 ["a@x", "b@y", "c@x"]).2.2 c8run (by decide)
      c8run.headI (by decide) (by decide)⟩

/-! ### Claim C10 -/

/-- C10 (confirmed): the single-address entry point returns exactly the
first (and only) element of the batch entry point applied to the
one-element list — and propagates the same raised exception when the
batch raises. -/
theorem c10_inspect_is_first_of_batch (C : Collaborators) (w : World) (q : String) :
    ((inspect_list C w [q]).result = none → inspect C w q = none) ∧
    (∀ rs, (inspect_list C w [q]).result = some rs →
      ∃ a, rs = [a] ∧ inspect C w q = some a) := by
  constructor
  · intro h
    unfold inspect
    rw [h]
  · intro rs h
    have hq := inspect_list_queries C w [q] rs h
    rcases rs with _ | ⟨a, tl⟩
    · simp at hq
    · rcases tl with _ | ⟨b, tl2⟩
      · refine ⟨a, rfl, ?_⟩
        unfold inspect
        rw [h]
        rfl
      · simp at hq

/-- C10 witness: the equivalence at a concrete invalid address. -/
theorem c10_witness :
    (inspect_list Ctest Wempty ["nope"]).result = some c10run ∧
    ∃ a, c10run = [a] ∧ inspect Ctest Wempty "nope" = some a :=
  ⟨by decide, (c10_inspect_is_first_of_batch Ctest Wempty "nope").2 c10run (by decide)⟩

/-! ### Claim C9 -/

/-- Inserting an exchange keeps the records of its own preference class
in front-insertion order: `orderedInsert` walks past strictly smaller
preferences only. -/
theorem orderedInsert_filter_eq (a : Exchange) :
    ∀ l : List Exchange,
      (List.orderedInsert prefLE a l).filter (fun e => e.preference == a.preference)
        = a :: l.filter (fun e => e.preference == a.preference) := by
  intro l
  induction l with
  | nil => simp [List.orderedInsert]
  | cons b bs ih =>
    by_cases hab : prefLE a b
    · rw [List.orderedInsert_of_le _ _ hab]
      simp
    · have hb : (b.preference == a.preference) = false := by
        simp only [prefLE, not_le] at hab
        simp only [beq_eq_false_iff_ne, ne_eq]
        omega
      simp only [List.orderedInsert, if_neg hab, List.filter_cons, hb, ih]
      simp

/-- Filtering another preference class ignores the inserted exchange. -/
theorem orderedInsert_filter_ne (a : Exchange) (q : Nat) (hq : q ≠ a.preference) :
    ∀ l : List Exchange,
      (List.orderedInsert prefLE a l).filter (fun e => e.preference == q)
        = l.filter (fun e => e.preference == q) := by
  intro l
  have ha : (a.preference == q) = false := by
    simp only [beq_eq_false_iff_ne, ne_eq]
    omega
  induction l with
  | nil => simp [List.orderedInsert, ha]
  | cons b bs ih =>
    by_cases hab : prefLE a b
    · rw [List.orderedInsert_of_le _ _ hab]
      simp [List.filter_cons, ha]
    · simp only [List.orderedInsert, if_neg hab, List.filter_cons, ih]

/-- Stability of the embedded sort: each preference class of the sorted
output equals the same class of the input, in input order. -/
theorem insertionSort_filter (q : Nat) :
    ∀ l : List Exchange,
      (List.insertionSort prefLE l).filter (fun e => e.preference == q)
        = l.filter (fun e => e.preference == q) := by
  intro l
  induction l with
  | nil => rfl
  | cons a bs ih =>
    rw [List.insertionSort]
    by_cases hq : q = a.preference
    · subst hq
      rw [orderedInsert_filter_eq, ih]
      simp
    · rw [orderedInsert_filter_ne a q hq, ih]
      have ha : (a.preference == q) = false := by
        simp only [beq_eq_false_iff_ne, ne_eq]
        omega
      simp [List.filter_cons, ha]

/-- Characters before the first `@` never stop the scan. -/
theorem dropWhile_past_prefix (rest : List Char) :
    ∀ (l : List Char), (∀ c ∈ l, c ≠ '@') →
      (l ++ '@' :: rest).dropWhile (fun c => c != '@') = '@' :: rest := by
  intro l
  induction l with
  | nil =>
    intro _
    simp [List.dropWhile]
  | cons c cs ih =>
    intro h
    have hc : (c != '@') = true := by
      simpa using h c (List.mem_cons_self c cs)
    simp only [List.cons_append, List.dropWhile_cons, hc, if_true]
    exact ih (fun x hx => h x (List.mem_cons_of_mem _ hx))

/-- Slicing `qname[qname.find('@') + 1:]` really strips a local part. -/
theorem stripLocal_append (loc dom : String) (h : '@' ∉ loc.toList) :
    stripLocal (loc ++ "@" ++ dom) = dom := by
  unfold stripLocal
  have ht : (loc ++ "@" ++ dom).toList = loc.toList ++ '@' :: dom.toList := by
    show loc.data ++ "@".data ++ dom.data = _
    simp
  rw [ht, dropWhile_past_prefix dom.toList loc.toList (fun c hc he => h (he ▸ hc))]
  rfl

/-- C9 (confirmed): `resolve_mx_records` queries the resolver on the
input with any local part stripped; on success it returns exactly the
answer's records sorted ascending by preference with ties kept in
resolver order; on a resolution failure it returns the empty sequence
unless `raise_exception` is set, in which case the failure propagates. -/
theorem c9_resolve_mx_contract (resolver : String → Except Unit (List (String × Nat)))
    (qname loc dom : String) (b : Bool) :
    (∀ ans, resolver (stripLocal qname) = .ok ans →
      ∃ l, resolve_mx_records resolver qname b = .ok l ∧
        l.Perm (ans.map toExchange) ∧ List.Sorted prefLE l ∧
        ∀ p, l.filter (fun e => e.preference == p)
          = (ans.map toExchange).filter (fun e => e.preference == p)) ∧
    (resolver (stripLocal qname) = .error () →
      (b = false → resolve_mx_records resolver qname b = .ok []) ∧
      (b = true → resolve_mx_records resolver qname b = .error ())) ∧
    ('@' ∉ loc.toList → stripLocal (loc ++ "@" ++ dom) = dom) := by
  refine ⟨?_, ?_, stripLocal_append loc dom⟩
  · intro ans hok
    refine ⟨List.insertionSort prefLE (ans.map toExchange), ?_,
      List.perm_insertionSort _ _, List.sorted_insertionSort _ _,
      fun p => insertionSort_filter p _⟩
    simp [resolve_mx_records, hok]
  · intro herr
    constructor <;> intro hb <;> subst hb <;> simp [resolve_mx_records, herr]

/-- C9 witness: an unsorted answer with a duplicated preference is
sorted stably, and the failure branches behave as stated. -/
theorem c9_witness :
    dnsC9 (stripLocal "x") = .ok [("m2.", 20), ("m1.", 10), ("m3.", 20)] ∧
    ∃ l, resolve_mx_records dnsC9 "x" false = .ok l ∧
      l.Perm ([("m2.", 20), ("m1.", 10), ("m3.", 20)].map toExchange) ∧
      List.Sorted prefLE l ∧
      ∀ p, l.filter (fun e => e.preference == p)
        = ([("m2.", 20), ("m1.", 10), ("m3.", 20)].map toExchange).filter
          (fun e => e.preference == p) :=
  ⟨rfl,
    (c9_resolve_mx_contract dnsC9 "x" "" "" false).1
      [("m2.", 20), ("m1.", 10), ("m3.", 20)] rfl⟩

end EmailInspect
